import Mathlib

/-!
Verification of the topology-aware alarm correlation engine and cascade
simulator of `src/logic.py` (classes `CausalInferenceEngine`,
`simulate_cascade_failure`).

The Python data model is embedded shallowly:
* `NetworkNode`, `Alarm`, `InferenceResult` are the dataclasses of the source
  (the `metadata` bag of `NetworkNode` is consumed only by out-of-scope
  collaborators and is omitted).
* a topology (`Dict[str, NetworkNode]`) is an association list searched from
  the front; `values()` is the list of second components, preserving the
  dict's insertion order.
* Python truthiness on an `Optional[str]` field (`if node.redundancy_group:`)
  is `truthy`: false exactly on `None` and on the empty string.
* Python's `sorted(alarms, key=...)` is a stable sort by key; it is embedded
  as the (extensionally equal) stable insertion sort `sortAlarms`.
* the `while queue:` loop of `simulate_cascade_failure` is embedded with an
  explicit fuel argument (`bfsAux`); the theorem for claim C8 shows that any
  fuel of at least `T.length + 1` yields the same, fully drained, final
  state, so the fuel is an artifact of totality, not a semantic change.
-/

namespace Aiops

/-- Topology vertex (`NetworkNode` dataclass of `data.py`, fields as used by
`logic.py`; `layer` is a Python int, `parent_id` and `redundancy_group` are
`Optional[str]`). -/
structure NetworkNode where
  id : String
  layer : Int
  parent_id : Option String
  redundancy_group : Option String
deriving Repr, DecidableEq

/-- Observed fault event (`Alarm` dataclass of `logic.py`). -/
structure Alarm where
  device_id : String
  message : String
  severity : String
deriving Repr, DecidableEq

/-- Engine output (`InferenceResult` dataclass of `logic.py`). -/
structure InferenceResult where
  root_cause_node : Option NetworkNode
  root_cause_reason : String
  sop_key : String
  related_alarms : List Alarm
  severity : String
deriving Repr, DecidableEq

/-- A topology snapshot: `Dict[str, NetworkNode]` as an insertion-ordered
association list. -/
abbrev Topology := List (String × NetworkNode)

/-- Dictionary lookup, `topology.get(k)` / `k in topology`. -/
def lookup (T : Topology) (k : String) : Option NetworkNode :=
  match T with
  | [] => none
  | (k', v) :: rest => if k' == k then some v else lookup rest k

/-- Ordered `topology.values()`. -/
def values (T : Topology) : List NetworkNode :=
  T.map Prod.snd

/-- Python truthiness of an `Optional[str]`: `None` and `""` are falsy. -/
def truthy : Option String → Bool
  | none => false
  | some s => s != ""

/-- Sort key of the topological ranking:
`self.topology[a.device_id].layer if a.device_id in self.topology else 999`. -/
def rank (T : Topology) (a : Alarm) : Int :=
  match lookup T a.device_id with
  | some n => n.layer
  | none => 999

/-- Stable insertion of an alarm into an already ranked list: the new alarm
goes after every element of equal or smaller rank. -/
def insertRanked (T : Topology) (a : Alarm) : List Alarm → List Alarm
  | [] => [a]
  | b :: bs => if rank T a < rank T b then a :: b :: bs else b :: insertRanked T a bs

/-- Embedding of `sorted(alarms, key=lambda a: ...)`: the stable sort of the
alarms by `rank` (Python's `sorted` is specified to be stable; any stable
sort by the same key is the same function). -/
def sortAlarms (T : Topology) (alarms : List Alarm) : List Alarm :=
  alarms.foldl (fun acc a => insertRanked T a acc) []

/-- `CausalInferenceEngine._analyze_redundancy`. -/
def _analyze_redundancy (T : Topology) (node : NetworkNode)
    (alarmed_ids : List String) (alarms : List Alarm) : InferenceResult :=
  let group_members := (values T).filter (fun n => n.redundancy_group == node.redundancy_group)
  let down_members := group_members.filter (fun n => alarmed_ids.contains n.id)
  if down_members.length = group_members.length then
    { root_cause_node := some node
    , root_cause_reason := "冗長性ルール: HAグループ " ++ node.redundancy_group.getD "None"
        ++ " の全メンバーがダウンしています。"
    , sop_key := "HA_TOTAL_FAILURE"
    , related_alarms := alarms
    , severity := "CRITICAL" }
  else
    { root_cause_node := some node
    , root_cause_reason := "冗長性ルール: HAグループ " ++ node.redundancy_group.getD "None"
        ++ " で単一ノード障害が発生しました。フェイルオーバーは有効です。"
    , sop_key := "HA_PARTIAL_FAILURE"
    , related_alarms := alarms
    , severity := "WARNING" }

/-- `CausalInferenceEngine._check_silent_failure_for_parent`. -/
def _check_silent_failure_for_parent (T : Topology) (parent_id : String)
    (alarmed_ids : List String) : Option InferenceResult :=
  match lookup T parent_id with
  | none => none
  | some parent_node =>
    let children := (values T).filter (fun n => n.parent_id == some parent_id)
    let children_down := (children.filter (fun c => alarmed_ids.contains c.id)).length
    if 0 < children.length ∧ children_down = children.length then
      some { root_cause_node := some parent_node
           , root_cause_reason := "サイレント障害推論: 親デバイス " ++ parent_id
               ++ " は沈黙していますが、配下の子デバイスが全滅しています。"
           , sop_key := "SILENT_FAILURE"
           , related_alarms := []
           , severity := "CRITICAL" }
    else none

/-- `CausalInferenceEngine.analyze_alarms`. -/
def analyze_alarms (T : Topology) (alarms : List Alarm) : InferenceResult :=
  let alarmed_device_ids := alarms.map (fun a => a.device_id)
  let sorted_alarms := sortAlarms T alarms
  match sorted_alarms with
  | [] =>
    { root_cause_node := none, root_cause_reason := "アラームなし"
    , sop_key := "DEFAULT", related_alarms := [], severity := "INFO" }
  | top_alarm :: _ =>
    match lookup T top_alarm.device_id with
    | none =>
      { root_cause_node := none, root_cause_reason := "不明なデバイス"
      , sop_key := "DEFAULT", related_alarms := alarms, severity := "UNKNOWN" }
    | some top_node =>
      if truthy top_node.redundancy_group then
        _analyze_redundancy T top_node alarmed_device_ids alarms
      else
        let silent_res :=
          if truthy top_node.parent_id then
            _check_silent_failure_for_parent T (top_node.parent_id.getD "") alarmed_device_ids
          else none
        match silent_res with
        | some r => r
        | none =>
          { root_cause_node := some top_node
          , root_cause_reason := "階層ルール: 最上位レイヤーのデバイス " ++ top_node.id
              ++ " でアラーム検知 (" ++ top_alarm.message ++ ")"
          , sop_key := "HIERARCHY_FAILURE"
          , related_alarms := alarms
          , severity := top_alarm.severity }

/-- Children scan of the cascade simulator:
`[n for n in topology.values() if n.parent_id == current_parent_id]`. -/
def childrenOf (T : Topology) (pid : String) : List NetworkNode :=
  (values T).filter (fun n => n.parent_id == some pid)

/-- Simulator loop state: `(generated_alarms, queue, processed)`. -/
abbrev SimState := List Alarm × List String × List String

/-- Body of the `for child in children:` loop of `simulate_cascade_failure`. -/
def stepChild (acc : SimState) (child : NetworkNode) : SimState :=
  let (alarms, queue, processed) := acc
  if processed.contains child.id then acc
  else (alarms ++ [⟨child.id, "Unreachable", "WARNING"⟩], queue ++ [child.id], child.id :: processed)

/-- The whole `for child in children:` loop. -/
def processChildren (cs : List NetworkNode) (acc : SimState) : SimState :=
  cs.foldl stepChild acc

/-- The `while queue:` loop of `simulate_cascade_failure`, with explicit
fuel; each iteration pops the queue front and runs the child loop. -/
def bfsAux (T : Topology) : Nat → SimState → SimState
  | 0, s => s
  | _ + 1, (alarms, [], processed) => (alarms, [], processed)
  | fuel + 1, (alarms, cur :: queue, processed) =>
    bfsAux T fuel (processChildren (childrenOf T cur) (alarms, queue, processed))

/-- Initial simulator state: the root-cause alarm is emitted first and the
root id seeds both queue and processed set. -/
def initState (root_cause_id : String) : SimState :=
  ([⟨root_cause_id, "Interface Down", "CRITICAL"⟩], [root_cause_id], [root_cause_id])

/-- `simulate_cascade_failure`; fuel `T.length + 1` is proved sufficient to
drain the queue (`bfsAux_fuel_irrelevant`). -/
def simulate_cascade_failure (root_cause_id : String) (T : Topology) : List Alarm :=
  (bfsAux T (T.length + 1) (initState root_cause_id)).1

/-- The `WARNING "Unreachable"` alarm emitted for a discovered descendant. -/
def warnAlarm (i : String) : Alarm :=
  ⟨i, "Unreachable", "WARNING"⟩

/-- Ids the child loop newly discovers, in discovery order, starting from
processed set `p`. -/
def newIds (p : List String) : List NetworkNode → List String
  | [] => []
  | c :: cs => if p.contains c.id then newIds p cs else c.id :: newIds (c.id :: p) cs

/-- Processed set after the child loop. -/
def procAfter (p : List String) : List NetworkNode → List String
  | [] => p
  | c :: cs => if p.contains c.id then procAfter p cs else procAfter (c.id :: p) cs

/-- Distinct device ids occurring in the topology's values. -/
def idList (T : Topology) : List String :=
  ((values T).map NetworkNode.id).dedup

/-- Number of topology ids not yet processed; the loop measure is the queue
length plus this count. -/
def unseen (T : Topology) (p : List String) : Nat :=
  ((idList T).filter (fun i => decide (i ∉ p))).length

/-- One breadth-first level: the ids newly discovered by expanding every
frontier member in order, together with the updated seen set. -/
def expandFrontier (T : Topology) : List String → List String → List String × List String
  | [], seen => ([], seen)
  | f :: fs, seen =>
    let ids := newIds seen (childrenOf T f)
    let r := expandFrontier T fs (procAfter seen (childrenOf T f))
    (ids ++ r.1, r.2)

/-- All breadth-first levels, flattened level by level in discovery order. -/
def levels (T : Topology) : Nat → List String → List String → List String
  | 0, _, _ => []
  | fuel + 1, frontier, seen =>
    let e := expandFrontier T frontier seen
    e.1 ++ levels T fuel e.1 e.2

/-- Reference rendering of the spec's description of the simulator: one
CRITICAL "Interface Down" alarm for the root cause, then one WARNING
"Unreachable" alarm per descendant, level by level,
first-discovered-first-emitted. -/
def simulate_levels (root : String) (T : Topology) : List Alarm :=
  ⟨root, "Interface Down", "CRITICAL"⟩ ::
    (levels T (T.length + 1) [root] [root]).map warnAlarm

/-- Descendant relation of the spec: a node whose `parent_id` chain reaches
the root-cause id inside the topology. -/
inductive Desc (T : Topology) (root : String) : String → Prop
  | child {n : NetworkNode} : n ∈ values T → n.parent_id = some root → Desc T root n.id
  | step {p : String} {n : NetworkNode} :
      Desc T root p → n ∈ values T → n.parent_id = some p → Desc T root n.id

/-- Loop invariant of the simulator: emitted device ids mirror the processed
set (in reverse construction order), the processed set has no duplicates and
contains the queue, every processed id is either still queued or fully
expanded, and every processed id is the root or one of its descendants. -/
def Inv (T : Topology) (root : String) (s : SimState) : Prop :=
  s.1.map (fun a => a.device_id) = s.2.2.reverse ∧
  s.2.2.Nodup ∧
  (∀ x ∈ s.2.1, x ∈ s.2.2) ∧
  (∀ x ∈ s.2.2, x ∈ s.2.1 ∨ ∀ c ∈ childrenOf T x, c.id ∈ s.2.2) ∧
  (∀ x ∈ s.2.2, x = root ∨ Desc T root x)

/-! ### Basic helper lemmas -/

theorem contains_iff_mem (l : List String) (x : String) : l.contains x = true ↔ x ∈ l :=
  List.elem_iff

theorem length_filter_eq_iff {α : Type} (p : α → Bool) (l : List α) :
    (l.filter p).length = l.length ↔ ∀ a ∈ l, p a = true := by
  induction l with
  | nil => simp
  | cons a l ih =>
    by_cases h : p a = true
    · simp [List.filter_cons, h, ih]
    · simp only [List.filter_cons, h, if_neg, Bool.false_eq_true, reduceIte]
      constructor
      · intro hlen
        exact absurd hlen (Nat.ne_of_lt (Nat.lt_succ_of_le (List.length_filter_le p l)))
      · intro hall
        exact absurd (hall a (List.mem_cons_self a l)) h

theorem lookup_mem_values {T : Topology} {k : String} {v : NetworkNode}
    (h : lookup T k = some v) : v ∈ values T := by
  induction T with
  | nil => simp [lookup] at h
  | cons p rest ih =>
    rw [lookup] at h
    by_cases hk : p.1 == k
    · simp only [hk, if_pos] at h
      cases h
      exact List.mem_map_of_mem Prod.snd (List.mem_cons_self p rest)
    · simp only [hk, Bool.false_eq_true, if_neg, reduceIte] at h
      exact List.mem_cons_of_mem _ (ih h)

theorem mem_values_lookup {T : Topology} {v : NetworkNode}
    (hid : ∀ p ∈ T, p.2.id = p.1) (hkeys : (T.map Prod.fst).Nodup)
    (hv : v ∈ values T) : lookup T v.id = some v := by
  induction T with
  | nil => simp [values] at hv
  | cons p rest ih =>
    simp only [values, List.map_cons, List.mem_cons] at hv
    rw [List.map_cons, List.nodup_cons] at hkeys
    rcases hv with hv | hv
    · subst hv
      rw [lookup, hid p (List.mem_cons_self p rest), beq_self_eq_true, if_pos rfl]
    · have hrest : lookup rest v.id = some v :=
        ih (fun q hq => hid q (List.mem_cons_of_mem p hq)) hkeys.2 hv
      have hne : p.1 ≠ v.id := by
        intro he
        rcases List.mem_map.mp hv with ⟨q, hq, hqv⟩
        have : v.id = q.1 := by rw [← hqv]; exact hid q (List.mem_cons_of_mem p hq)
        exact hkeys.1 (by rw [he, this]; exact List.mem_map_of_mem Prod.fst hq)
      rw [lookup, if_neg (by simpa using hne)]
      exact hrest

/-- Evaluation of `analyze_alarms` once the sorted list is non-empty and the
top alarm resolves in the topology. -/
theorem analyze_cons {T : Topology} {alarms : List Alarm} {top : Alarm}
    {rest : List Alarm} {node : NetworkNode}
    (hs : sortAlarms T alarms = top :: rest)
    (hn : lookup T top.device_id = some node) :
    analyze_alarms T alarms =
      if truthy node.redundancy_group then
        _analyze_redundancy T node (alarms.map (fun a => a.device_id)) alarms
      else
        match (if truthy node.parent_id then
                _check_silent_failure_for_parent T (node.parent_id.getD "")
                  (alarms.map (fun a => a.device_id))
              else none) with
        | some r => r
        | none =>
          { root_cause_node := some node
          , root_cause_reason := "階層ルール: 最上位レイヤーのデバイス " ++ node.id
              ++ " でアラーム検知 (" ++ top.message ++ ")"
          , sop_key := "HIERARCHY_FAILURE"
          , related_alarms := alarms
          , severity := top.severity } := by
  unfold analyze_alarms
  rw [hs]
  dsimp only
  rw [hn]

/-! ### Claim theorems: degenerate inputs and determinism -/

/-- C6: for every topology, analyzing an empty alarm list returns the
no-root-cause result with reason "no alarms" (`アラームなし`), sop key
`DEFAULT`, empty related alarms, severity `INFO`; the embedding is a total
function, so no exception is possible. -/
theorem analyze_empty_input (T : Topology) :
    analyze_alarms T [] =
      { root_cause_node := none, root_cause_reason := "アラームなし"
      , sop_key := "DEFAULT", related_alarms := [], severity := "INFO" } := rfl

/-- C5: for every topology and non-empty alarm list whose top-ranked alarm
references a device absent from the topology, `analyze_alarms` returns the
no-root-cause result with reason "unknown device" (`不明なデバイス`), sop key
`DEFAULT`, severity `UNKNOWN`, and the full original alarm list as
`related_alarms`; totality of the embedding rules out an exception. -/
theorem analyze_unknown_device {T : Topology} {alarms : List Alarm}
    {top : Alarm} {rest : List Alarm}
    (hs : sortAlarms T alarms = top :: rest)
    (hl : lookup T top.device_id = none) :
    analyze_alarms T alarms =
      { root_cause_node := none, root_cause_reason := "不明なデバイス"
      , sop_key := "DEFAULT", related_alarms := alarms, severity := "UNKNOWN" } := by
  unfold analyze_alarms
  rw [hs]
  dsimp only
  rw [hl]

/-- C9: `analyze_alarms` is deterministic — two calls on identical inputs
(same topology, same alarm sequence in the same order) agree on every field
of the result. -/
theorem analyze_deterministic (T T' : Topology) (alarms alarms' : List Alarm)
    (hT : T = T') (hA : alarms = alarms') :
    (analyze_alarms T alarms).root_cause_node = (analyze_alarms T' alarms').root_cause_node ∧
    (analyze_alarms T alarms).root_cause_reason = (analyze_alarms T' alarms').root_cause_reason ∧
    (analyze_alarms T alarms).sop_key = (analyze_alarms T' alarms').sop_key ∧
    (analyze_alarms T alarms).related_alarms = (analyze_alarms T' alarms').related_alarms ∧
    (analyze_alarms T alarms).severity = (analyze_alarms T' alarms').severity := by
  subst hT; subst hA
  exact ⟨rfl, rfl, rfl, rfl, rfl⟩

/-- Witness for C9 at a concrete input. -/
theorem analyze_deterministic_witness :
    (analyze_alarms [] []).root_cause_node = (analyze_alarms [] []).root_cause_node ∧
    (analyze_alarms [] []).root_cause_reason = (analyze_alarms [] []).root_cause_reason ∧
    (analyze_alarms [] []).sop_key = (analyze_alarms [] []).sop_key ∧
    (analyze_alarms [] []).related_alarms = (analyze_alarms [] []).related_alarms ∧
    (analyze_alarms [] []).severity = (analyze_alarms [] []).severity :=
  analyze_deterministic [] [] [] [] rfl rfl

/-- Witness for C5 at a concrete input. -/
theorem analyze_unknown_device_witness :
    analyze_alarms [("X", ⟨"X", 1, none, none⟩)] [⟨"ghost", "x", "CRITICAL"⟩] =
      { root_cause_node := none, root_cause_reason := "不明なデバイス"
      , sop_key := "DEFAULT"
      , related_alarms := [⟨"ghost", "x", "CRITICAL"⟩], severity := "UNKNOWN" } :=
  @analyze_unknown_device [("X", ⟨"X", 1, none, none⟩)] [⟨"ghost", "x", "CRITICAL"⟩]
    ⟨"ghost", "x", "CRITICAL"⟩ [] (by decide) (by decide)

/-- Evaluation of `analyze_alarms` when the sorted alarm list is empty. -/
theorem analyze_sorted_nil {T : Topology} {alarms : List Alarm}
    (hs : sortAlarms T alarms = []) :
    analyze_alarms T alarms =
      { root_cause_node := none, root_cause_reason := "アラームなし"
      , sop_key := "DEFAULT", related_alarms := [], severity := "INFO" } := by
  unfold analyze_alarms
  rw [hs]

/-- Shape of a successful silent-failure verdict. -/
theorem silent_some {T : Topology} {pid : String} {A : List String}
    {r : InferenceResult}
    (h : _check_silent_failure_for_parent T pid A = some r) :
    ∃ parent, lookup T pid = some parent ∧ r.root_cause_node = some parent ∧
      r.related_alarms = [] ∧ r.sop_key = "SILENT_FAILURE" ∧ r.severity = "CRITICAL" := by
  unfold _check_silent_failure_for_parent at h
  cases hl : lookup T pid with
  | none => rw [hl] at h; exact absurd h (by simp)
  | some parent =>
    rw [hl] at h
    dsimp only at h
    split at h
    · cases h
      exact ⟨parent, rfl, rfl, rfl, rfl, rfl⟩
    · exact absurd h (by simp)

/-- Evaluation of `analyze_alarms` when the silent-failure check yields a
verdict. -/
theorem analyze_silent_some {T : Topology} {alarms : List Alarm} {top : Alarm}
    {rest : List Alarm} {node : NetworkNode} {pid : String} {r : InferenceResult}
    (hs : sortAlarms T alarms = top :: rest)
    (hn : lookup T top.device_id = some node)
    (hr : truthy node.redundancy_group = false)
    (hp : node.parent_id = some pid) (hpne : pid ≠ "")
    (hsil : _check_silent_failure_for_parent T pid
      (alarms.map (fun a => a.device_id)) = some r) :
    analyze_alarms T alarms = r := by
  have hpt : truthy (some pid) = true := by simpa [truthy] using hpne
  rw [analyze_cons hs hn, hr]
  simp only [Bool.false_eq_true, if_false, hp, hpt, if_true, Option.getD_some, hsil]

/-- Evaluation of `analyze_alarms` when the silent-failure step yields no
verdict (covers a falsy parent reference as well as a failed check). -/
theorem analyze_fallback {T : Topology} {alarms : List Alarm} {top : Alarm}
    {rest : List Alarm} {node : NetworkNode}
    (hs : sortAlarms T alarms = top :: rest)
    (hn : lookup T top.device_id = some node)
    (hr : truthy node.redundancy_group = false)
    (hsilent : (if truthy node.parent_id then
        _check_silent_failure_for_parent T (node.parent_id.getD "")
          (alarms.map (fun a => a.device_id))
      else none) = none) :
    analyze_alarms T alarms =
      { root_cause_node := some node
      , root_cause_reason := "階層ルール: 最上位レイヤーのデバイス " ++ node.id
          ++ " でアラーム検知 (" ++ top.message ++ ")"
      , sop_key := "HIERARCHY_FAILURE"
      , related_alarms := alarms
      , severity := top.severity } := by
  rw [analyze_cons hs hn, hr]
  simp only [Bool.false_eq_true, if_false, hsilent]

/-! ### Claim theorems: the three correlation rules -/

/-- C1: whenever the top-ranked alarm resolves to a node whose
`redundancy_group` is set, the redundancy rule decides the verdict: the root
cause is that node, `related_alarms` is the original alarm list; if every
topology node sharing the group tag has its id among the alarmed device ids
the result is `HA_TOTAL_FAILURE`/`CRITICAL`, otherwise
`HA_PARTIAL_FAILURE`/`WARNING`; the silent-parent and direct-attribution
rules never run, so the sop key is never `SILENT_FAILURE` nor
`HIERARCHY_FAILURE`. -/
theorem analyze_redundancy_rule {T : Topology} {alarms : List Alarm}
    {top : Alarm} {rest : List Alarm} {node : NetworkNode}
    (hs : sortAlarms T alarms = top :: rest)
    (hn : lookup T top.device_id = some node)
    (hr : truthy node.redundancy_group = true) :
    (analyze_alarms T alarms).root_cause_node = some node ∧
    (analyze_alarms T alarms).related_alarms = alarms ∧
    ((∀ n ∈ values T, n.redundancy_group = node.redundancy_group →
        n.id ∈ alarms.map (fun a => a.device_id)) →
      (analyze_alarms T alarms).sop_key = "HA_TOTAL_FAILURE" ∧
      (analyze_alarms T alarms).severity = "CRITICAL") ∧
    ((∃ n ∈ values T, n.redundancy_group = node.redundancy_group ∧
        n.id ∉ alarms.map (fun a => a.device_id)) →
      (analyze_alarms T alarms).sop_key = "HA_PARTIAL_FAILURE" ∧
      (analyze_alarms T alarms).severity = "WARNING") ∧
    (analyze_alarms T alarms).sop_key ≠ "SILENT_FAILURE" ∧
    (analyze_alarms T alarms).sop_key ≠ "HIERARCHY_FAILURE" := by
  rw [analyze_cons hs hn, if_pos hr]
  unfold _analyze_redundancy
  dsimp only
  have hmem : ∀ n : NetworkNode,
      n ∈ (values T).filter (fun n => n.redundancy_group == node.redundancy_group) ↔
        n ∈ values T ∧ n.redundancy_group = node.redundancy_group := by
    intro n
    rw [List.mem_filter, beq_iff_eq]
  have hiff :
      (((values T).filter (fun n => n.redundancy_group == node.redundancy_group)).filter
          (fun n => (alarms.map (fun a => a.device_id)).contains n.id)).length =
        ((values T).filter (fun n => n.redundancy_group == node.redundancy_group)).length ↔
      (∀ n ∈ values T, n.redundancy_group = node.redundancy_group →
        n.id ∈ alarms.map (fun a => a.device_id)) := by
    rw [length_filter_eq_iff]
    constructor
    · intro h n hnv hng
      exact (contains_iff_mem _ _).mp (h n ((hmem n).mpr ⟨hnv, hng⟩))
    · intro h n hn
      rcases (hmem n).mp hn with ⟨hnv, hng⟩
      exact (contains_iff_mem _ _).mpr (h n hnv hng)
  by_cases hlen :
      (((values T).filter (fun n => n.redundancy_group == node.redundancy_group)).filter
          (fun n => (alarms.map (fun a => a.device_id)).contains n.id)).length =
        ((values T).filter (fun n => n.redundancy_group == node.redundancy_group)).length
  · rw [if_pos hlen]
    refine ⟨rfl, rfl, fun _ => ⟨rfl, rfl⟩, ?_,
      show ("HA_TOTAL_FAILURE" : String) ≠ "SILENT_FAILURE" by decide,
      show ("HA_TOTAL_FAILURE" : String) ≠ "HIERARCHY_FAILURE" by decide⟩
    intro hex
    rcases hex with ⟨bad, hbv, hbg, hbad⟩
    exact absurd ((hiff.mp hlen) bad hbv hbg) hbad
  · rw [if_neg hlen]
    refine ⟨rfl, rfl, ?_, fun _ => ⟨rfl, rfl⟩,
      show ("HA_PARTIAL_FAILURE" : String) ≠ "SILENT_FAILURE" by decide,
      show ("HA_PARTIAL_FAILURE" : String) ≠ "HIERARCHY_FAILURE" by decide⟩
    intro hall
    exact absurd (hiff.mpr hall) hlen

/-- C2: when the top node has no redundancy group but a parent that resolves
in the topology, the silent-parent rule fires exactly when the parent's
child set is non-empty and every child is alarmed, returning the parent
with `SILENT_FAILURE`/`CRITICAL` and empty `related_alarms`; otherwise no
verdict is produced and the direct-attribution fallback result is
returned. -/
theorem analyze_silent_parent_rule {T : Topology} {alarms : List Alarm}
    {top : Alarm} {rest : List Alarm} {node parent : NetworkNode} {pid : String}
    (hs : sortAlarms T alarms = top :: rest)
    (hn : lookup T top.device_id = some node)
    (hr : truthy node.redundancy_group = false)
    (hp : node.parent_id = some pid) (hpne : pid ≠ "")
    (hparent : lookup T pid = some parent) :
    ((childrenOf T pid ≠ [] ∧
        ∀ c ∈ childrenOf T pid, c.id ∈ alarms.map (fun a => a.device_id)) →
      analyze_alarms T alarms =
        { root_cause_node := some parent
        , root_cause_reason := "サイレント障害推論: 親デバイス " ++ pid
            ++ " は沈黙していますが、配下の子デバイスが全滅しています。"
        , sop_key := "SILENT_FAILURE"
        , related_alarms := []
        , severity := "CRITICAL" }) ∧
    ((childrenOf T pid = [] ∨
        ∃ c ∈ childrenOf T pid, c.id ∉ alarms.map (fun a => a.device_id)) →
      analyze_alarms T alarms =
        { root_cause_node := some node
        , root_cause_reason := "階層ルール: 最上位レイヤーのデバイス " ++ node.id
            ++ " でアラーム検知 (" ++ top.message ++ ")"
        , sop_key := "HIERARCHY_FAILURE"
        , related_alarms := alarms
        , severity := top.severity }) := by
  have hpt : truthy node.parent_id = true := by
    rw [hp]
    simpa [truthy] using hpne
  constructor
  · intro ⟨hne, hall⟩
    have hcond : 0 < (childrenOf T pid).length ∧
        ((childrenOf T pid).filter
          (fun c => (alarms.map (fun a => a.device_id)).contains c.id)).length =
          (childrenOf T pid).length := by
      refine ⟨List.length_pos.mpr hne, (length_filter_eq_iff _ _).mpr ?_⟩
      intro c hc
      exact (contains_iff_mem _ _).mpr (hall c hc)
    have hsil : _check_silent_failure_for_parent T pid
        (alarms.map (fun a => a.device_id)) = some
          { root_cause_node := some parent
          , root_cause_reason := "サイレント障害推論: 親デバイス " ++ pid
              ++ " は沈黙していますが、配下の子デバイスが全滅しています。"
          , sop_key := "SILENT_FAILURE"
          , related_alarms := []
          , severity := "CRITICAL" } := by
      unfold _check_silent_failure_for_parent
      rw [hparent]
      dsimp only
      have hce : (values T).filter (fun n => n.parent_id == some pid) = childrenOf T pid := rfl
      rw [hce, if_pos hcond]
    exact analyze_silent_some hs hn hr hp hpne hsil
  · intro hno
    have hcond : ¬ (0 < (childrenOf T pid).length ∧
        ((childrenOf T pid).filter
          (fun c => (alarms.map (fun a => a.device_id)).contains c.id)).length =
          (childrenOf T pid).length) := by
      rcases hno with hnil | ⟨bad, hbc, hbad⟩
      · intro ⟨hpos, _⟩
        rw [hnil] at hpos
        exact Nat.lt_irrefl 0 hpos
      · intro ⟨_, hlen⟩
        exact hbad ((contains_iff_mem _ _).mp ((length_filter_eq_iff _ _).mp hlen bad hbc))
    have hsil : _check_silent_failure_for_parent T pid
        (alarms.map (fun a => a.device_id)) = none := by
      unfold _check_silent_failure_for_parent
      rw [hparent]
      dsimp only
      have hce : (values T).filter (fun n => n.parent_id == some pid) = childrenOf T pid := rfl
      rw [hce, if_neg hcond]
    have hsilent : (if truthy node.parent_id then
        _check_silent_failure_for_parent T (node.parent_id.getD "")
          (alarms.map (fun a => a.device_id))
      else none) = none := by
      rw [hpt, if_pos rfl, hp, Option.getD_some]
      exact hsil
    exact analyze_fallback hs hn hr hsilent

/-- C3: when the top node resolves, has no redundancy group and the
silent-parent rule produces no verdict (no truthy parent reference, parent
absent, no children, or some child not alarmed), `analyze_alarms` returns
the direct-attribution result: the top node itself, sop key
`HIERARCHY_FAILURE`, the original unsorted alarm list, and the severity
copied verbatim from the top-ranked alarm. -/
theorem analyze_direct_attribution {T : Topology} {alarms : List Alarm}
    {top : Alarm} {rest : List Alarm} {node : NetworkNode}
    (hs : sortAlarms T alarms = top :: rest)
    (hn : lookup T top.device_id = some node)
    (hr : truthy node.redundancy_group = false)
    (hsilent : (if truthy node.parent_id then
        _check_silent_failure_for_parent T (node.parent_id.getD "")
          (alarms.map (fun a => a.device_id))
      else none) = none) :
    analyze_alarms T alarms =
      { root_cause_node := some node
      , root_cause_reason := "階層ルール: 最上位レイヤーのデバイス " ++ node.id
          ++ " でアラーム検知 (" ++ top.message ++ ")"
      , sop_key := "HIERARCHY_FAILURE"
      , related_alarms := alarms
      , severity := top.severity } :=
  analyze_fallback hs hn hr hsilent

/-- C10: the engine never fabricates a node — whenever a result carries a
root-cause node, that node is one of the values of the supplied topology
(and, for a topology whose keys are distinct and consistent with the node
ids, it is exactly `topology[node.id]`); moreover `related_alarms` is always
either the original input list or the empty list, never the internally
sorted list. -/
theorem analyze_invariants (T : Topology) (alarms : List Alarm) :
    (∀ n, (analyze_alarms T alarms).root_cause_node = some n → n ∈ values T) ∧
    ((analyze_alarms T alarms).related_alarms = alarms ∨
      (analyze_alarms T alarms).related_alarms = []) ∧
    ((∀ p ∈ T, p.2.id = p.1) → (T.map Prod.fst).Nodup →
      ∀ n, (analyze_alarms T alarms).root_cause_node = some n →
        lookup T n.id = some n) := by
  have main : (∀ n, (analyze_alarms T alarms).root_cause_node = some n → n ∈ values T) ∧
      ((analyze_alarms T alarms).related_alarms = alarms ∨
        (analyze_alarms T alarms).related_alarms = []) := by
    cases hs : sortAlarms T alarms with
    | nil =>
      rw [analyze_sorted_nil hs]
      exact ⟨fun n h => Option.noConfusion h, Or.inr rfl⟩
    | cons top rest =>
      cases hl : lookup T top.device_id with
      | none =>
        rw [analyze_unknown_device hs hl]
        exact ⟨fun n h => Option.noConfusion h, Or.inl rfl⟩
      | some node =>
        rw [analyze_cons hs hl]
        by_cases hr : truthy node.redundancy_group = true
        · rw [if_pos hr]
          unfold _analyze_redundancy
          dsimp only
          by_cases hlen :
              (((values T).filter (fun n => n.redundancy_group == node.redundancy_group)).filter
                  (fun n => (alarms.map (fun a => a.device_id)).contains n.id)).length =
                ((values T).filter (fun n => n.redundancy_group == node.redundancy_group)).length
          · rw [if_pos hlen]
            exact ⟨fun n h => by cases h; exact lookup_mem_values hl, Or.inl rfl⟩
          · rw [if_neg hlen]
            exact ⟨fun n h => by cases h; exact lookup_mem_values hl, Or.inl rfl⟩
        · rw [if_neg hr]
          cases hps : (if truthy node.parent_id then
              _check_silent_failure_for_parent T (node.parent_id.getD "")
                (alarms.map (fun a => a.device_id))
            else none) with
          | none =>
            exact ⟨fun n h => by cases h; exact lookup_mem_values hl, Or.inl rfl⟩
          | some r =>
            have hsil : _check_silent_failure_for_parent T (node.parent_id.getD "")
                (alarms.map (fun a => a.device_id)) = some r := by
              by_cases hpt : truthy node.parent_id = true
              · rwa [if_pos hpt] at hps
              · rw [if_neg hpt] at hps
                exact Option.noConfusion hps
            rcases silent_some hsil with ⟨parent, hlp, hrc, hrel, _, _⟩
            refine ⟨fun n h => ?_, Or.inr hrel⟩
            rw [hrc] at h
            cases h
            exact lookup_mem_values hlp
  refine ⟨main.1, main.2, fun hid hkeys n h => ?_⟩
  exact mem_values_lookup hid hkeys (main.1 n h)

/-- Witness for C1 on a two-node HA group with both members alarmed. -/
theorem analyze_redundancy_rule_witness :
    (analyze_alarms [("A", ⟨"A", 1, none, some "grp1"⟩), ("B", ⟨"B", 1, none, some "grp1"⟩)]
        [⟨"A", "down", "CRITICAL"⟩, ⟨"B", "down", "CRITICAL"⟩]).root_cause_node =
      some ⟨"A", 1, none, some "grp1"⟩ ∧
    (analyze_alarms [("A", ⟨"A", 1, none, some "grp1"⟩), ("B", ⟨"B", 1, none, some "grp1"⟩)]
        [⟨"A", "down", "CRITICAL"⟩, ⟨"B", "down", "CRITICAL"⟩]).related_alarms =
      [⟨"A", "down", "CRITICAL"⟩, ⟨"B", "down", "CRITICAL"⟩] ∧
    (analyze_alarms [("A", ⟨"A", 1, none, some "grp1"⟩), ("B", ⟨"B", 1, none, some "grp1"⟩)]
        [⟨"A", "down", "CRITICAL"⟩, ⟨"B", "down", "CRITICAL"⟩]).sop_key = "HA_TOTAL_FAILURE" := by
  have h := @analyze_redundancy_rule
    [("A", ⟨"A", 1, none, some "grp1"⟩), ("B", ⟨"B", 1, none, some "grp1"⟩)]
    [⟨"A", "down", "CRITICAL"⟩, ⟨"B", "down", "CRITICAL"⟩]
    ⟨"A", "down", "CRITICAL"⟩ [⟨"B", "down", "CRITICAL"⟩] ⟨"A", 1, none, some "grp1"⟩
    (by decide) (by decide) (by decide)
  exact ⟨h.1, h.2.1, (h.2.2.1 (by decide)).1⟩

/-- Witness for C2 on a parent with two children, both alarmed. -/
theorem analyze_silent_parent_rule_witness :
    analyze_alarms
        [("P", ⟨"P", 1, none, none⟩), ("C1", ⟨"C1", 2, some "P", none⟩),
          ("C2", ⟨"C2", 2, some "P", none⟩)]
        [⟨"C1", "u", "WARNING"⟩, ⟨"C2", "u", "WARNING"⟩] =
      { root_cause_node := some ⟨"P", 1, none, none⟩
      , root_cause_reason := "サイレント障害推論: 親デバイス " ++ "P"
          ++ " は沈黙していますが、配下の子デバイスが全滅しています。"
      , sop_key := "SILENT_FAILURE"
      , related_alarms := []
      , severity := "CRITICAL" } := by
  have h := @analyze_silent_parent_rule
    [("P", ⟨"P", 1, none, none⟩), ("C1", ⟨"C1", 2, some "P", none⟩),
      ("C2", ⟨"C2", 2, some "P", none⟩)]
    [⟨"C1", "u", "WARNING"⟩, ⟨"C2", "u", "WARNING"⟩]
    ⟨"C1", "u", "WARNING"⟩ [⟨"C2", "u", "WARNING"⟩]
    ⟨"C1", 2, some "P", none⟩ ⟨"P", 1, none, none⟩ "P"
    (by decide) (by decide) (by decide) (by decide) (by decide) (by decide)
  exact h.1 ⟨by decide, by decide⟩

/-- Witness for C3 on a single alarmed leaf whose sibling is quiet, showing
the verbatim severity passthrough. -/
theorem analyze_direct_attribution_witness :
    analyze_alarms
        [("P", ⟨"P", 1, none, none⟩), ("C1", ⟨"C1", 2, some "P", none⟩),
          ("C2", ⟨"C2", 2, some "P", none⟩)]
        [⟨"C1", "u", "WARNING"⟩] =
      { root_cause_node := some ⟨"C1", 2, some "P", none⟩
      , root_cause_reason := "階層ルール: 最上位レイヤーのデバイス " ++ "C1"
          ++ " でアラーム検知 (" ++ "u" ++ ")"
      , sop_key := "HIERARCHY_FAILURE"
      , related_alarms := [⟨"C1", "u", "WARNING"⟩]
      , severity := "WARNING" } :=
  @analyze_direct_attribution
    [("P", ⟨"P", 1, none, none⟩), ("C1", ⟨"C1", 2, some "P", none⟩),
      ("C2", ⟨"C2", 2, some "P", none⟩)]
    [⟨"C1", "u", "WARNING"⟩]
    ⟨"C1", "u", "WARNING"⟩ [] ⟨"C1", 2, some "P", none⟩
    (by decide) (by decide) (by decide) (by decide)

/-- Witness for C10 on a concrete topology with consistent keys. -/
theorem analyze_invariants_witness :
    (∀ n, (analyze_alarms [("P", ⟨"P", 1, none, none⟩), ("C1", ⟨"C1", 2, some "P", none⟩)]
        [⟨"C1", "u", "WARNING"⟩]).root_cause_node = some n →
      n ∈ values [("P", ⟨"P", 1, none, none⟩), ("C1", ⟨"C1", 2, some "P", none⟩)]) ∧
    lookup [("P", ⟨"P", 1, none, none⟩), ("C1", ⟨"C1", 2, some "P", none⟩)] "P" =
      some ⟨"P", 1, none, none⟩ := by
  have h := analyze_invariants
    [("P", ⟨"P", 1, none, none⟩), ("C1", ⟨"C1", 2, some "P", none⟩)]
    [⟨"C1", "u", "WARNING"⟩]
  exact ⟨h.1, h.2.2 (by decide) (by decide) ⟨"P", 1, none, none⟩ (by decide)⟩

/-! ### Properties of the topological ranking (claim C4) -/

theorem insertRanked_perm (T : Topology) (a : Alarm) (l : List Alarm) :
    (insertRanked T a l).Perm (a :: l) := by
  induction l with
  | nil => exact List.Perm.refl _
  | cons b bs ih =>
    unfold insertRanked
    split
    · exact List.Perm.refl _
    · exact List.Perm.trans (List.Perm.cons b ih) (List.Perm.swap a b bs)

theorem mem_insertRanked {T : Topology} {a y : Alarm} {l : List Alarm} :
    y ∈ insertRanked T a l ↔ y = a ∨ y ∈ l := by
  rw [(insertRanked_perm T a l).mem_iff, List.mem_cons]

theorem insertRanked_sorted (T : Topology) (a : Alarm) {l : List Alarm}
    (h : l.Pairwise (fun x y => rank T x ≤ rank T y)) :
    (insertRanked T a l).Pairwise (fun x y => rank T x ≤ rank T y) := by
  induction l with
  | nil => simp [insertRanked]
  | cons b bs ih =>
    rcases List.pairwise_cons.mp h with ⟨hb, hbs⟩
    unfold insertRanked
    split
    · rename_i hab
      refine List.pairwise_cons.mpr ⟨?_, h⟩
      intro y hy
      rcases List.mem_cons.mp hy with rfl | hy'
      · exact Int.le_of_lt hab
      · exact Int.le_trans (Int.le_of_lt hab) (hb y hy')
    · rename_i hab
      refine List.pairwise_cons.mpr ⟨?_, ih hbs⟩
      intro y hy
      rcases mem_insertRanked.mp hy with rfl | hy'
      · exact Int.not_lt.mp hab
      · exact hb y hy'

theorem sortAlarms_perm (T : Topology) (alarms : List Alarm) :
    (sortAlarms T alarms).Perm alarms := by
  have aux : ∀ (l acc : List Alarm),
      (l.foldl (fun acc a => insertRanked T a acc) acc).Perm (acc ++ l) := by
    intro l
    induction l with
    | nil => intro acc; simp
    | cons a l ih =>
      intro acc
      rw [List.foldl_cons]
      refine List.Perm.trans (ih (insertRanked T a acc)) ?_
      refine List.Perm.trans (List.Perm.append_right l (insertRanked_perm T a acc)) ?_
      exact List.perm_middle.symm
  simpa using aux alarms []

theorem sortAlarms_sorted (T : Topology) (alarms : List Alarm) :
    (sortAlarms T alarms).Pairwise (fun x y => rank T x ≤ rank T y) := by
  have aux : ∀ (l acc : List Alarm),
      acc.Pairwise (fun x y => rank T x ≤ rank T y) →
      (l.foldl (fun acc a => insertRanked T a acc) acc).Pairwise
        (fun x y => rank T x ≤ rank T y) := by
    intro l
    induction l with
    | nil => intro acc h; exact h
    | cons a l ih =>
      intro acc h
      rw [List.foldl_cons]
      exact ih _ (insertRanked_sorted T a h)
  exact aux alarms [] (List.Pairwise.nil)

theorem filter_insertRanked_ne (T : Topology) (a : Alarm) (l : List Alarm)
    {r : Int} (hne : rank T a ≠ r) :
    (insertRanked T a l).filter (fun b => rank T b == r) =
      l.filter (fun b => rank T b == r) := by
  have hfa : (rank T a == r) = false := by
    simp [hne]
  induction l with
  | nil => simp [insertRanked, List.filter, hfa]
  | cons b bs ih =>
    unfold insertRanked
    split
    · rw [List.filter_cons, hfa]
      simp
    · rw [List.filter_cons, List.filter_cons]
      by_cases hb : (rank T b == r) = true
      · rw [hb, if_pos rfl, if_pos rfl, ih]
      · rw [Bool.not_eq_true] at hb
        rw [hb]
        simpa using ih

theorem filter_insertRanked_eq (T : Topology) (a : Alarm) {l : List Alarm}
    (hsort : l.Pairwise (fun x y => rank T x ≤ rank T y)) :
    (insertRanked T a l).filter (fun b => rank T b == rank T a) =
      l.filter (fun b => rank T b == rank T a) ++ [a] := by
  induction l with
  | nil => simp [insertRanked]
  | cons b bs ih =>
    rcases List.pairwise_cons.mp hsort with ⟨hb, hbs⟩
    unfold insertRanked
    split
    · rename_i hab
      have hnil : (b :: bs).filter (fun x => rank T x == rank T a) = [] := by
        rw [List.filter_eq_nil_iff]
        intro x hx
        rcases List.mem_cons.mp hx with rfl | hx'
        · simp only [beq_iff_eq]
          exact fun he => absurd hab (by rw [he]; exact Int.lt_irrefl _)
        · simp only [beq_iff_eq]
          intro he
          have : rank T b ≤ rank T a := by rw [← he]; exact hb x hx'
          exact absurd hab (Int.not_lt.mpr this)
      rw [List.filter_cons, hnil]
      simp
    · rename_i hab
      rw [List.filter_cons, List.filter_cons]
      by_cases hbr : (rank T b == rank T a) = true
      · rw [hbr, if_pos rfl, if_pos rfl, ih hbs]
        rfl
      · rw [Bool.not_eq_true] at hbr
        rw [hbr]
        simpa using ih hbs

theorem sortAlarms_filter (T : Topology) (alarms : List Alarm) (r : Int) :
    (sortAlarms T alarms).filter (fun b => rank T b == r) =
      alarms.filter (fun b => rank T b == r) := by
  have aux : ∀ (l acc : List Alarm),
      acc.Pairwise (fun x y => rank T x ≤ rank T y) →
      (l.foldl (fun acc a => insertRanked T a acc) acc).filter (fun b => rank T b == r) =
        acc.filter (fun b => rank T b == r) ++ l.filter (fun b => rank T b == r) := by
    intro l
    induction l with
    | nil => intro acc _; simp
    | cons a l ih =>
      intro acc hacc
      rw [List.foldl_cons, ih _ (insertRanked_sorted T a hacc), List.filter_cons]
      by_cases ha : rank T a = r
      · subst ha
        rw [filter_insertRanked_eq T a hacc]
        simp
      · rw [filter_insertRanked_ne T a acc ha]
        have hfa : (rank T a == r) = false := by simp [ha]
        rw [hfa]
        simp
  simpa using aux alarms [] List.Pairwise.nil

/-- C4 counterexample: in the topology holding only device "X" at layer
1000, the alarm of the unknown device "G" is ranked 999 and is sorted
BEFORE the alarm of the present device "X", contradicting the claim that an
alarm whose device is absent from the topology sorts after every alarm
whose device is present, regardless of that node's layer value. -/
theorem sortAlarms_unknown_counterexample :
    sortAlarms [("X", ⟨"X", 1000, none, none⟩)]
        [⟨"X", "m", "CRITICAL"⟩, ⟨"G", "m", "CRITICAL"⟩] =
      [⟨"G", "m", "CRITICAL"⟩, ⟨"X", "m", "CRITICAL"⟩] ∧
    lookup [("X", ⟨"X", 1000, none, none⟩)] "G" = none ∧
    lookup [("X", ⟨"X", 1000, none, none⟩)] "X" = some ⟨"X", 1000, none, none⟩ := by
  exact ⟨by decide, by decide, by decide⟩

/-- C4 (amended): the topological ranking is the stable sort of the alarms
by rank, where the rank of an alarm is the layer of its resolved node and
999 when its device id is absent from the topology (so an absent-device
alarm sorts after exactly those alarms whose resolved layer is below 999,
not after every present-device alarm); the output is a permutation of the
input, is non-decreasing in rank, and alarms of equal rank keep their
original relative input order. -/
theorem sortAlarms_spec (T : Topology) (alarms : List Alarm) :
    (sortAlarms T alarms).Perm alarms ∧
    (sortAlarms T alarms).Pairwise (fun x y => rank T x ≤ rank T y) ∧
    (∀ r : Int, (sortAlarms T alarms).filter (fun b => rank T b == r) =
      alarms.filter (fun b => rank T b == r)) ∧
    (∀ a : Alarm, lookup T a.device_id = none → rank T a = 999) ∧
    (∀ (a : Alarm) (n : NetworkNode), lookup T a.device_id = some n → rank T a = n.layer) := by
  refine ⟨sortAlarms_perm T alarms, sortAlarms_sorted T alarms,
    sortAlarms_filter T alarms, fun a h => ?_, fun a n h => ?_⟩
  · unfold rank
    rw [h]
  · unfold rank
    rw [h]

/-- Witness for C4's amended statement at a concrete input. -/
theorem sortAlarms_spec_witness :
    (sortAlarms [("X", ⟨"X", 1000, none, none⟩)]
        [⟨"X", "m", "CRITICAL"⟩, ⟨"G", "m", "CRITICAL"⟩]).Perm
      [⟨"X", "m", "CRITICAL"⟩, ⟨"G", "m", "CRITICAL"⟩] ∧
    rank [("X", ⟨"X", 1000, none, none⟩)] ⟨"G", "m", "CRITICAL"⟩ = 999 ∧
    rank [("X", ⟨"X", 1000, none, none⟩)] ⟨"X", "m", "CRITICAL"⟩ = 1000 := by
  have h := sortAlarms_spec [("X", ⟨"X", 1000, none, none⟩)]
    [⟨"X", "m", "CRITICAL"⟩, ⟨"G", "m", "CRITICAL"⟩]
  exact ⟨h.1, h.2.2.2.1 ⟨"G", "m", "CRITICAL"⟩ (by decide),
    by rw [h.2.2.2.2 ⟨"X", "m", "CRITICAL"⟩ ⟨"X", 1000, none, none⟩ (by decide)]⟩

/-! ### Cascade-simulator lemmas -/

theorem processChildren_eq (cs : List NetworkNode) :
    ∀ (a : List Alarm) (q p : List String),
      processChildren cs (a, q, p) =
        (a ++ (newIds p cs).map warnAlarm, q ++ newIds p cs, procAfter p cs) := by
  induction cs with
  | nil => intro a q p; simp [processChildren, newIds, procAfter]
  | cons c cs ih =>
    intro a q p
    show processChildren cs (stepChild (a, q, p) c) = _
    by_cases hc : p.contains c.id
    · have hc' : c.id ∈ p := (contains_iff_mem _ _).mp hc
      rw [show stepChild (a, q, p) c = (a, q, p) by simp [stepChild, hc']]
      rw [ih a q p]
      simp [newIds, procAfter, hc']
    · have hc' : c.id ∉ p := fun h => hc ((contains_iff_mem _ _).mpr h)
      rw [show stepChild (a, q, p) c =
          (a ++ [warnAlarm c.id], q ++ [c.id], c.id :: p) by
        simp [stepChild, hc', warnAlarm]]
      rw [ih (a ++ [warnAlarm c.id]) (q ++ [c.id]) (c.id :: p)]
      simp [newIds, procAfter, hc', List.append_assoc]

theorem procAfter_eq (cs : List NetworkNode) :
    ∀ p : List String, procAfter p cs = (newIds p cs).reverse ++ p := by
  induction cs with
  | nil => intro p; simp [procAfter, newIds]
  | cons c cs ih =>
    intro p
    by_cases hc : p.contains c.id
    · have hc' : c.id ∈ p := (contains_iff_mem _ _).mp hc
      simp [procAfter, newIds, hc', ih]
    · have hc' : c.id ∉ p := fun h => hc ((contains_iff_mem _ _).mpr h)
      simp only [procAfter, newIds, hc, Bool.false_eq_true, if_false, ih (c.id :: p)]
      simp [hc', List.append_assoc]

theorem procAfter_sub {cs : List NetworkNode} {p : List String} {x : String}
    (hx : x ∈ p) : x ∈ procAfter p cs := by
  rw [procAfter_eq]
  exact List.mem_append_right _ hx

theorem mem_newIds {cs : List NetworkNode} : ∀ {p x}, x ∈ newIds p cs →
    x ∈ cs.map NetworkNode.id ∧ x ∉ p := by
  induction cs with
  | nil => intro p x hx; simp [newIds] at hx
  | cons c cs ih =>
    intro p x hx
    by_cases hc : p.contains c.id
    · rw [newIds, if_pos hc] at hx
      rcases ih hx with ⟨hm, hp⟩
      exact ⟨List.mem_cons_of_mem _ hm, hp⟩
    · rw [newIds, if_neg hc] at hx
      rcases List.mem_cons.mp hx with rfl | hx'
      · refine ⟨List.mem_cons_self _ _, fun hp => ?_⟩
        exact hc ((contains_iff_mem _ _).mpr hp)
      · rcases ih hx' with ⟨hm, hp⟩
        refine ⟨List.mem_cons_of_mem _ hm, fun hmem => hp (List.mem_cons_of_mem _ hmem)⟩

theorem newIds_nodup (cs : List NetworkNode) : ∀ p, (newIds p cs).Nodup := by
  induction cs with
  | nil => intro p; simp [newIds]
  | cons c cs ih =>
    intro p
    by_cases hc : p.contains c.id
    · rw [newIds, if_pos hc]; exact ih p
    · rw [newIds, if_neg hc]
      refine List.nodup_cons.mpr ⟨fun hmem => ?_, ih (c.id :: p)⟩
      exact (mem_newIds hmem).2 (List.mem_cons_self _ _)

theorem children_procAfter (cs : List NetworkNode) :
    ∀ p, ∀ c ∈ cs, c.id ∈ procAfter p cs := by
  induction cs with
  | nil => intro p c hc; simp at hc
  | cons d cs ih =>
    intro p c hc
    rcases List.mem_cons.mp hc with rfl | hc'
    · by_cases hd : p.contains c.id
      · rw [procAfter, if_pos hd]
        exact procAfter_sub ((contains_iff_mem _ _).mp hd)
      · rw [procAfter, if_neg hd]
        exact procAfter_sub (List.mem_cons_self _ _)
    · by_cases hd : p.contains d.id
      · rw [procAfter, if_pos hd]; exact ih p c hc'
      · rw [procAfter, if_neg hd]; exact ih (d.id :: p) c hc'

theorem bfsAux_nil_queue (T : Topology) (fuel : Nat) (a : List Alarm) (p : List String) :
    bfsAux T fuel (a, [], p) = (a, [], p) := by
  cases fuel with
  | zero => rfl
  | succ n => rfl

theorem filter_notmem_cons {x : String} : ∀ (ids p : List String), ids.Nodup → x ∈ ids → x ∉ p →
    ((ids.filter (fun i => decide (i ∉ x :: p))).length) + 1 =
      (ids.filter (fun i => decide (i ∉ p))).length := by
  intro ids
  induction ids with
  | nil =>
    intro p _ hx _
    simp at hx
  | cons y ids ih =>
    intro p hnd hx hxp
    rcases List.nodup_cons.mp hnd with ⟨hy, hnd'⟩
    rcases List.mem_cons.mp hx with rfl | hx'
    · have h1 : (decide (x ∉ x :: p)) = false := by simp
      have h2 : (decide (x ∉ p)) = true := by simpa using hxp
      rw [List.filter_cons, List.filter_cons, h1, h2, if_neg (by simp), if_pos rfl,
        List.length_cons]
      have hfc : List.filter (fun i => decide (i ∉ x :: p)) ids =
          List.filter (fun i => decide (i ∉ p)) ids := by
        apply List.filter_congr
        intro i hi
        have hix : i ≠ x := fun he => hy (he ▸ hi)
        simp [List.mem_cons, hix]
      rw [hfc]
    · have hxy : x ≠ y := fun he => hy (he ▸ hx')
      have hyx : y ≠ x := fun he => hxy he.symm
      have hrec := ih p hnd' hx' hxp
      rw [List.filter_cons, List.filter_cons]
      by_cases hyp : y ∈ p
      · have h1 : (decide (y ∉ x :: p)) = false := by simp [List.mem_cons, hyp]
        have h2 : (decide (y ∉ p)) = false := by simp [hyp]
        rw [h1, h2, if_neg (by simp), if_neg (by simp)]
        exact hrec
      · have h1 : (decide (y ∉ x :: p)) = true := by simp [List.mem_cons, hyx, hyp]
        have h2 : (decide (y ∉ p)) = true := by simp [hyp]
        rw [h1, h2, if_pos rfl, if_pos rfl, List.length_cons, List.length_cons]
        omega

theorem unseen_cons {T : Topology} {p : List String} {x : String}
    (hx : x ∈ idList T) (hxp : x ∉ p) : unseen T (x :: p) + 1 = unseen T p :=
  filter_notmem_cons (idList T) p (List.nodup_dedup _) hx hxp

theorem children_ids_in {T : Topology} {x : String} {c : NetworkNode}
    (hc : c ∈ childrenOf T x) : c.id ∈ idList T := by
  have hv : c ∈ values T := (List.mem_filter.mp hc).1
  exact List.mem_dedup.mpr (List.mem_map_of_mem _ hv)

theorem newIds_unseen (T : Topology) :
    ∀ (cs : List NetworkNode) (p : List String), (∀ c ∈ cs, c.id ∈ idList T) →
      unseen T (procAfter p cs) + (newIds p cs).length = unseen T p := by
  intro cs
  induction cs with
  | nil => intro p _; simp [procAfter, newIds]
  | cons c cs ih =>
    intro p hcs
    by_cases hc : p.contains c.id
    · rw [procAfter, if_pos hc, newIds, if_pos hc]
      exact ih p (fun d hd => hcs d (List.mem_cons_of_mem _ hd))
    · rw [procAfter, if_neg hc, newIds, if_neg hc]
      have hcp : c.id ∉ p := fun h => hc ((contains_iff_mem _ _).mpr h)
      have h1 := ih (c.id :: p) (fun d hd => hcs d (List.mem_cons_of_mem _ hd))
      have h2 := unseen_cons (hcs c (List.mem_cons_self _ _)) hcp
      rw [List.length_cons]
      omega

theorem bfs_stable (T : Topology) : ∀ (fuel1 fuel2 : Nat) (a : List Alarm) (q p : List String),
    q.length + unseen T p ≤ fuel1 → q.length + unseen T p ≤ fuel2 →
    bfsAux T fuel1 (a, q, p) = bfsAux T fuel2 (a, q, p) := by
  intro fuel1
  induction fuel1 with
  | zero =>
    intro fuel2 a q p h1 _
    have hq : q = [] := by
      cases q with
      | nil => rfl
      | cons c q' => simp [List.length_cons] at h1
    subst hq
    rw [bfsAux_nil_queue, bfsAux_nil_queue]
  | succ f ih =>
    intro fuel2 a q p h1 h2
    cases q with
    | nil => rw [bfsAux_nil_queue, bfsAux_nil_queue]
    | cons cur q' =>
      cases fuel2 with
      | zero => simp [List.length_cons] at h2
      | succ f2 =>
        show bfsAux T f (processChildren (childrenOf T cur) (a, q', p)) =
          bfsAux T f2 (processChildren (childrenOf T cur) (a, q', p))
        rw [processChildren_eq]
        have hm := newIds_unseen T (childrenOf T cur) p (fun c hc => children_ids_in hc)
        rw [List.length_cons] at h1 h2
        apply ih
        · rw [List.length_append]; omega
        · rw [List.length_append]; omega

theorem bfs_drains (T : Topology) : ∀ (fuel : Nat) (a : List Alarm) (q p : List String),
    q.length + unseen T p ≤ fuel → (bfsAux T fuel (a, q, p)).2.1 = [] := by
  intro fuel
  induction fuel with
  | zero =>
    intro a q p h1
    have hq : q = [] := by
      cases q with
      | nil => rfl
      | cons c q' => simp [List.length_cons] at h1
    subst hq
    rw [bfsAux_nil_queue]
  | succ f ih =>
    intro a q p h1
    cases q with
    | nil => rw [bfsAux_nil_queue]
    | cons cur q' =>
      show (bfsAux T f (processChildren (childrenOf T cur) (a, q', p))).2.1 = []
      rw [processChildren_eq]
      have hm := newIds_unseen T (childrenOf T cur) p (fun c hc => children_ids_in hc)
      rw [List.length_cons] at h1
      apply ih
      rw [List.length_append]
      omega

theorem init_measure (T : Topology) (root : String) :
    1 + unseen T [root] ≤ T.length + 1 := by
  have h1 : unseen T [root] ≤ (idList T).length := List.length_filter_le _ _
  have h2 : (idList T).length ≤ T.length := by
    have h3 : (idList T).length ≤ ((values T).map NetworkNode.id).length :=
      (List.dedup_sublist _).length_le
    have h4 : ((values T).map NetworkNode.id).length = T.length := by
      simp [values]
    omega
  omega

/-- C8: the cascade traversal terminates on every finite topology, cyclic or
not: with any fuel of at least `T.length + 1` the loop has already drained
its queue (the processed set lets each id be enqueued at most once), the
resulting state no longer depends on the fuel, and the emitted alarm list is
exactly `simulate_cascade_failure root T`. -/
theorem simulate_terminates (T : Topology) (root : String) (fuel : Nat)
    (h : T.length + 1 ≤ fuel) :
    bfsAux T fuel (initState root) = bfsAux T (T.length + 1) (initState root) ∧
    (bfsAux T fuel (initState root)).2.1 = [] ∧
    (bfsAux T fuel (initState root)).1 = simulate_cascade_failure root T := by
  have hm : (([root] : List String)).length + unseen T [root] ≤ T.length + 1 := by
    rw [List.length_cons, List.length_nil]
    exact init_measure T root
  have hstable := bfs_stable T fuel (T.length + 1)
    [⟨root, "Interface Down", "CRITICAL"⟩] [root] [root]
    (Nat.le_trans hm h) hm
  refine ⟨hstable, ?_, ?_⟩
  · exact bfs_drains T fuel _ _ _ (Nat.le_trans hm h)
  · rw [show (initState root) = ([⟨root, "Interface Down", "CRITICAL"⟩], [root], [root]) from rfl,
      hstable]
    rfl

/-- Witness for C8 on a small concrete topology with generous fuel. -/
theorem simulate_terminates_witness :
    bfsAux [("P", ⟨"P", 1, none, none⟩), ("C1", ⟨"C1", 2, some "P", none⟩)] 7
        (initState "P") =
      bfsAux [("P", ⟨"P", 1, none, none⟩), ("C1", ⟨"C1", 2, some "P", none⟩)] 3
        (initState "P") ∧
    (bfsAux [("P", ⟨"P", 1, none, none⟩), ("C1", ⟨"C1", 2, some "P", none⟩)] 7
        (initState "P")).2.1 = [] ∧
    (bfsAux [("P", ⟨"P", 1, none, none⟩), ("C1", ⟨"C1", 2, some "P", none⟩)] 7
        (initState "P")).1 =
      simulate_cascade_failure "P" [("P", ⟨"P", 1, none, none⟩), ("C1", ⟨"C1", 2, some "P", none⟩)] :=
  simulate_terminates [("P", ⟨"P", 1, none, none⟩), ("C1", ⟨"C1", 2, some "P", none⟩)]
    "P" 7 (by decide)

theorem expand_unseen (T : Topology) : ∀ (front seen : List String),
    unseen T (expandFrontier T front seen).2 + (expandFrontier T front seen).1.length =
      unseen T seen := by
  intro front
  induction front with
  | nil => intro seen; simp [expandFrontier]
  | cons f fs ih =>
    intro seen
    have h1 := ih (procAfter seen (childrenOf T f))
    have h2 := newIds_unseen T (childrenOf T f) seen (fun c hc => children_ids_in hc)
    show unseen T (expandFrontier T fs (procAfter seen (childrenOf T f))).2 +
      (newIds seen (childrenOf T f) ++
        (expandFrontier T fs (procAfter seen (childrenOf T f))).1).length = unseen T seen
    rw [List.length_append]
    omega

theorem levels_nil (T : Topology) : ∀ (lf : Nat) (seen : List String),
    levels T lf [] seen = [] := by
  intro lf
  induction lf with
  | zero => intro seen; rfl
  | succ n ih =>
    intro seen
    show ([] : List String) ++ levels T n [] seen = []
    rw [List.nil_append, ih seen]

theorem bfs_split (T : Topology) : ∀ (front : List String) (fuel : Nat) (a : List Alarm)
    (rest seen : List String),
    bfsAux T (front.length + fuel) (a, front ++ rest, seen) =
      bfsAux T fuel (a ++ (expandFrontier T front seen).1.map warnAlarm,
        rest ++ (expandFrontier T front seen).1, (expandFrontier T front seen).2) := by
  intro front
  induction front with
  | nil =>
    intro fuel a rest seen
    simp [expandFrontier]
  | cons f fs ih =>
    intro fuel a rest seen
    have hlen : (f :: fs).length + fuel = (fs.length + fuel) + 1 := by
      rw [List.length_cons]; omega
    rw [hlen]
    show bfsAux T (fs.length + fuel)
        (processChildren (childrenOf T f) (a, fs ++ rest, seen)) = _
    rw [processChildren_eq]
    have hassoc : (fs ++ rest) ++ newIds seen (childrenOf T f) =
        fs ++ (rest ++ newIds seen (childrenOf T f)) := List.append_assoc _ _ _
    rw [hassoc, ih fuel (a ++ (newIds seen (childrenOf T f)).map warnAlarm)
      (rest ++ newIds seen (childrenOf T f)) (procAfter seen (childrenOf T f))]
    show _ = bfsAux T fuel
      (a ++ (newIds seen (childrenOf T f) ++
        (expandFrontier T fs (procAfter seen (childrenOf T f))).1).map warnAlarm,
       rest ++ (newIds seen (childrenOf T f) ++
        (expandFrontier T fs (procAfter seen (childrenOf T f))).1),
       (expandFrontier T fs (procAfter seen (childrenOf T f))).2)
    rw [List.map_append, List.append_assoc, List.append_assoc]

theorem bfs_levels_eq (T : Topology) : ∀ (lf : Nat) (front seen : List String) (a : List Alarm),
    front.length + unseen T seen ≤ lf →
    (bfsAux T lf (a, front, seen)).1 = a ++ (levels T lf front seen).map warnAlarm := by
  intro lf
  induction lf with
  | zero =>
    intro front seen a _
    show a = a ++ (List.map warnAlarm [])
    simp [levels]
  | succ lf ih =>
    intro front seen a h
    cases front with
    | nil =>
      rw [bfsAux_nil_queue, levels_nil]
      simp
    | cons f fs =>
      have hpos : 1 ≤ (f :: fs).length := by rw [List.length_cons]; omega
      have hsplit : lf + 1 = (f :: fs).length + (lf + 1 - (f :: fs).length) := by omega
      have hrhs : levels T (lf + 1) (f :: fs) seen =
          (expandFrontier T (f :: fs) seen).1 ++
            levels T lf (expandFrontier T (f :: fs) seen).1
              (expandFrontier T (f :: fs) seen).2 := rfl
      rw [hrhs]
      rw [show ((a, f :: fs, seen) : SimState) = (a, (f :: fs) ++ [], seen) by
        rw [List.append_nil], hsplit,
        bfs_split T (f :: fs) (lf + 1 - (f :: fs).length) a [] seen]
      rw [List.nil_append]
      have hmeas := expand_unseen T (f :: fs) seen
      have hstab := bfs_stable T (lf + 1 - (f :: fs).length) lf
        (a ++ (expandFrontier T (f :: fs) seen).1.map warnAlarm)
        (expandFrontier T (f :: fs) seen).1 (expandFrontier T (f :: fs) seen).2
        (by omega) (by rw [List.length_cons] at h; omega)
      rw [hstab]
      rw [ih (expandFrontier T (f :: fs) seen).1 (expandFrontier T (f :: fs) seen).2
        (a ++ (expandFrontier T (f :: fs) seen).1.map warnAlarm)
        (by rw [List.length_cons] at h; omega)]
      rw [List.map_append, List.append_assoc]

theorem simulate_eq_levels (T : Topology) (root : String) :
    simulate_cascade_failure root T = simulate_levels root T := by
  show (bfsAux T (T.length + 1)
      ([⟨root, "Interface Down", "CRITICAL"⟩], [root], [root])).1 = _
  rw [bfs_levels_eq T (T.length + 1) [root] [root]
    [⟨root, "Interface Down", "CRITICAL"⟩]
    (by rw [List.length_cons, List.length_nil]; exact init_measure T root)]
  rfl

theorem newIds_sub_procAfter {cs : List NetworkNode} {p : List String} {x : String}
    (hx : x ∈ newIds p cs) : x ∈ procAfter p cs := by
  rw [procAfter_eq]
  exact List.mem_append_left _ (List.mem_reverse.mpr hx)

theorem mem_procAfter_cases {cs : List NetworkNode} {p : List String} {x : String}
    (hx : x ∈ procAfter p cs) : x ∈ newIds p cs ∨ x ∈ p := by
  rw [procAfter_eq] at hx
  rcases List.mem_append.mp hx with h | h
  · exact Or.inl (List.mem_reverse.mp h)
  · exact Or.inr h

theorem inv_step {T : Topology} {root : String} {a : List Alarm} {cur : String}
    {q p : List String} (h : Inv T root (a, cur :: q, p)) :
    Inv T root (processChildren (childrenOf T cur) (a, q, p)) := by
  obtain ⟨hemit, hnodup, hqsub, hclosed, hsound⟩ := h
  rw [processChildren_eq]
  refine ⟨?_, ?_, ?_, ?_, ?_⟩
  · show (a ++ (newIds p (childrenOf T cur)).map warnAlarm).map (fun a => a.device_id) =
      (procAfter p (childrenOf T cur)).reverse
    rw [List.map_append, hemit, List.map_map, procAfter_eq, List.reverse_append,
      List.reverse_reverse]
    congr 1
    rw [show ((fun a => a.device_id) ∘ warnAlarm) = id from rfl, List.map_id]
  · show (procAfter p (childrenOf T cur)).Nodup
    rw [procAfter_eq]
    rw [List.nodup_append]
    refine ⟨List.nodup_reverse.mpr (newIds_nodup _ p), hnodup, ?_⟩
    intro x hx hxp
    exact (mem_newIds (List.mem_reverse.mp hx)).2 hxp
  · intro x hx
    rcases List.mem_append.mp hx with hq | hN
    · exact procAfter_sub (hqsub x (List.mem_cons_of_mem _ hq))
    · exact newIds_sub_procAfter hN
  · intro x hx
    rcases mem_procAfter_cases hx with hN | hp
    · exact Or.inl (List.mem_append_right _ hN)
    · rcases hclosed x hp with hq | hch
      · rcases List.mem_cons.mp hq with rfl | hq'
        · exact Or.inr (fun c hc => children_procAfter _ p c hc)
        · exact Or.inl (List.mem_append_left _ hq')
      · exact Or.inr (fun c hc => procAfter_sub (hch c hc))
  · intro x hx
    rcases mem_procAfter_cases hx with hN | hp
    · obtain ⟨hmap, _⟩ := mem_newIds hN
      obtain ⟨c, hc, hcid⟩ := List.mem_map.mp hmap
      subst hcid
      rcases List.mem_filter.mp hc with ⟨hcv, hbeq⟩
      have hpar : c.parent_id = some cur := by
        exact beq_iff_eq.mp hbeq
      have hcur : cur ∈ p := hqsub cur (List.mem_cons_self _ _)
      rcases hsound cur hcur with rfl | hdesc
      · exact Or.inr (Desc.child hcv hpar)
      · exact Or.inr (Desc.step hdesc hcv hpar)
    · exact hsound x hp

theorem bfs_inv (T : Topology) (root : String) : ∀ (fuel : Nat) (s : SimState),
    Inv T root s → Inv T root (bfsAux T fuel s) := by
  intro fuel
  induction fuel with
  | zero => intro s h; exact h
  | succ f ih =>
    intro s h
    obtain ⟨a, q, p⟩ := s
    cases q with
    | nil => rw [bfsAux_nil_queue]; exact h
    | cons cur q' =>
      show Inv T root (bfsAux T f (processChildren (childrenOf T cur) (a, q', p)))
      exact ih _ (inv_step h)

theorem bfs_proc_mono (T : Topology) : ∀ (fuel : Nat) (a : List Alarm) (q p : List String),
    ∀ x ∈ p, x ∈ (bfsAux T fuel (a, q, p)).2.2 := by
  intro fuel
  induction fuel with
  | zero => intro a q p x hx; exact hx
  | succ f ih =>
    intro a q p x hx
    cases q with
    | nil => rw [bfsAux_nil_queue]; exact hx
    | cons cur q' =>
      show x ∈ (bfsAux T f (processChildren (childrenOf T cur) (a, q', p))).2.2
      rw [processChildren_eq]
      exact ih _ _ _ x (procAfter_sub hx)

theorem init_inv (T : Topology) (root : String) : Inv T root (initState root) := by
  refine ⟨rfl, List.nodup_singleton root, fun x hx => hx, fun x hx => Or.inl hx, fun x hx => ?_⟩
  exact Or.inl (List.mem_singleton.mp hx)

/-- C7: for every topology and root-cause id, the simulator emits the
CRITICAL "Interface Down" alarm for the root first, then exactly one WARNING
"Unreachable" alarm per descendant (node whose parent chain reaches the
root), each device id at most once, in breadth-first level-by-level
first-discovered-first-emitted order (equality with the level-by-level
reference `simulate_levels`). -/
theorem simulate_cascade_spec (T : Topology) (root : String) :
    simulate_cascade_failure root T = simulate_levels root T ∧
    (simulate_cascade_failure root T).head? = some ⟨root, "Interface Down", "CRITICAL"⟩ ∧
    (∀ al ∈ (simulate_cascade_failure root T).tail,
      al.message = "Unreachable" ∧ al.severity = "WARNING") ∧
    ((simulate_cascade_failure root T).map (fun a => a.device_id)).Nodup ∧
    (∀ x, x ∈ (simulate_cascade_failure root T).map (fun a => a.device_id) ↔
      x = root ∨ Desc T root x) := by
  have hlev := simulate_eq_levels T root
  obtain ⟨hemit, hnodup, hqsub, hclosed, hsound⟩ :=
    bfs_inv T root (T.length + 1) (initState root) (init_inv T root)
  have hdrain : (bfsAux T (T.length + 1) (initState root)).2.1 = [] :=
    bfs_drains T (T.length + 1) [⟨root, "Interface Down", "CRITICAL"⟩] [root] [root]
      (by rw [List.length_cons, List.length_nil]; exact init_measure T root)
  have hrootp : root ∈ (bfsAux T (T.length + 1) (initState root)).2.2 :=
    bfs_proc_mono T (T.length + 1) [⟨root, "Interface Down", "CRITICAL"⟩] [root] [root]
      root (List.mem_cons_self _ _)
  have hch : ∀ y, y ∈ (bfsAux T (T.length + 1) (initState root)).2.2 →
      ∀ c ∈ childrenOf T y, c.id ∈ (bfsAux T (T.length + 1) (initState root)).2.2 := by
    intro y hy
    rcases hclosed y hy with hq | h
    · rw [hdrain] at hq
      exact absurd hq (List.not_mem_nil y)
    · exact h
  have hcomplete : ∀ x, Desc T root x →
      x ∈ (bfsAux T (T.length + 1) (initState root)).2.2 := by
    intro x hx
    induction hx with
    | child hcv hpar =>
      exact hch root hrootp _
        (List.mem_filter.mpr ⟨hcv, by rw [hpar]; exact beq_self_eq_true _⟩)
    | step hdesc hcv hpar ih =>
      exact hch _ ih _
        (List.mem_filter.mpr ⟨hcv, by rw [hpar]; exact beq_self_eq_true _⟩)
  have hmm : ∀ x, x ∈ (simulate_cascade_failure root T).map (fun a => a.device_id) ↔
      x ∈ (bfsAux T (T.length + 1) (initState root)).2.2 := by
    intro x
    show x ∈ (bfsAux T (T.length + 1) (initState root)).1.map (fun a => a.device_id) ↔ _
    rw [hemit, List.mem_reverse]
  refine ⟨hlev, ?_, ?_, ?_, ?_⟩
  · rw [hlev]
    rfl
  · rw [hlev]
    intro al hal
    obtain ⟨i, _, rfl⟩ := List.mem_map.mp hal
    exact ⟨rfl, rfl⟩
  · show ((bfsAux T (T.length + 1) (initState root)).1.map (fun a => a.device_id)).Nodup
    rw [hemit]
    exact List.nodup_reverse.mpr hnodup
  · intro x
    rw [hmm x]
    constructor
    · exact hsound x
    · intro h
      rcases h with rfl | hdesc
      · exact hrootp
      · exact hcomplete x hdesc

/-- Witness for C7 on the spec's golden example: root P with children C1,
C2 and grandchild G1 below C1. -/
theorem simulate_cascade_spec_witness :
    simulate_cascade_failure "P"
        [("P", ⟨"P", 1, none, none⟩), ("C1", ⟨"C1", 2, some "P", none⟩),
          ("C2", ⟨"C2", 2, some "P", none⟩), ("G1", ⟨"G1", 3, some "C1", none⟩)] =
      simulate_levels "P"
        [("P", ⟨"P", 1, none, none⟩), ("C1", ⟨"C1", 2, some "P", none⟩),
          ("C2", ⟨"C2", 2, some "P", none⟩), ("G1", ⟨"G1", 3, some "C1", none⟩)] ∧
    ((simulate_cascade_failure "P"
        [("P", ⟨"P", 1, none, none⟩), ("C1", ⟨"C1", 2, some "P", none⟩),
          ("C2", ⟨"C2", 2, some "P", none⟩), ("G1", ⟨"G1", 3, some "C1", none⟩)]).map
      (fun a => a.device_id)).Nodup ∧
    "G1" ∈ (simulate_cascade_failure "P"
        [("P", ⟨"P", 1, none, none⟩), ("C1", ⟨"C1", 2, some "P", none⟩),
          ("C2", ⟨"C2", 2, some "P", none⟩), ("G1", ⟨"G1", 3, some "C1", none⟩)]).map
      (fun a => a.device_id) := by
  have h := simulate_cascade_spec
    [("P", ⟨"P", 1, none, none⟩), ("C1", ⟨"C1", 2, some "P", none⟩),
      ("C2", ⟨"C2", 2, some "P", none⟩), ("G1", ⟨"G1", 3, some "C1", none⟩)] "P"
  refine ⟨h.1, h.2.2.2.1, (h.2.2.2.2 "G1").mpr (Or.inr ?_)⟩
  exact Desc.step (p := "C1")
    (Desc.child (n := ⟨"C1", 2, some "P", none⟩) (by decide) rfl)
    (n := ⟨"G1", 3, some "C1", none⟩) (by decide) rfl

end Aiops
